import Mathlib

/-!
Verification of the vendored booby schema/validation/serialization core
(src/venv/lib/python2.7/site-packages/booby/{base,fields,models}.py).

The Python code is shallowly embedded as executable Lean definitions:

* `Value` is the universe of runtime values the library manipulates
  (None, int, str, bool, list, plain dict with string keys, model instance).
  Model instances are represented by their `_data` mapping; the schema of a
  nested instance is recovered from the field that owns it, as in the source
  every embedded/list/dict field carries its nested model class.
* `Mdl`/`FieldTy` embed model classes and field descriptors.  The field
  kinds embedded here are the ones the claims are about: the base `Field`
  (identity conversions), `IntegerField`, `EmbeddedField`, `ListField` and
  `DictField`.  A `DictField` key model is not embedded (dict keys are
  modelled as strings, as in JSON data); only the value model is.
* Recursive operations (construction, `__set__`, `_update`, `to_python`,
  `to_plain`) recurse through nested model classes.  They are stratified by
  a `Nat` nesting budget (`opsAt fuel`): level `fuel + 1` operations call
  level `fuel` operations for one extra level of model nesting, and level 0
  returns the `BErr.fuelOut` marker.  Any `fuel` larger than the model
  nesting depth of the input computes the Python result.
* Python exceptions are `Except` errors: `BErr.fieldError` is
  `errors.FieldError`, `BErr.boobyError` is `errors.BoobyError`, and
  `BErr.pyError` stands for a raw Python exception (`TypeError` or
  `AttributeError`) escaping from code paths the embedding marks as outside
  the modelled universe (for example calling `to_plain` on a truthy value
  that is not a model where the source would crash, or the in-place
  mutation of a shared class-level model default).
-/

/-- Runtime values of the embedded Python fragment. -/
inductive Value where
  | vnone
  | vint (n : Int)
  | vstr (s : String)
  | vbool (b : Bool)
  | vlist (xs : List Value)
  | vdict (es : List (String × Value))
  | vmodel (d : List (String × Value))
deriving Repr

/-- Python truthiness for `Value`.  A booby `Model` instance defines neither
`__nonzero__` nor `__len__`, so model instances are always truthy. -/
def truthy : Value → Bool
  | Value.vnone => false
  | Value.vint n => n != 0
  | Value.vstr s => s ≠ ""
  | Value.vbool b => b
  | Value.vlist xs => !xs.isEmpty
  | Value.vdict es => !es.isEmpty
  | Value.vmodel _ => true

/-- Is this value a model instance. -/
def isModelV : Value → Bool
  | Value.vmodel _ => true
  | _ => false

/-- Association-list lookup (first occurrence), the read side of a Python
dict keyed by strings. -/
def lookupKV {α : Type} : List (String × α) → String → Option α
  | [], _ => none
  | (k', v) :: rest, k => if k' = k then some v else lookupKV rest k

/-- Association-list store: `d[k] = v` replaces the binding if the key is
present, else appends it. -/
def setkv {α : Type} : List (String × α) → String → α → List (String × α)
  | [], k, v => [(k, v)]
  | (k', v') :: rest, k, v =>
      if k' = k then (k, v) :: rest else (k', v') :: setkv rest k v

mutual
/-- A field descriptor, with its default value.  Mirrors the `Field`
subclasses of fields.py used by the claims: `plainF` is the base `Field`
(identity `to_plain`/`to_python`, plain `__set__`), `intF` is
`IntegerField`, `embeddedF`, `listF` and `dictF` carry their nested model
class where the source stores `self.model` / `self.value_model`. -/
inductive FieldTy where
  | plainF (dflt : Value)
  | intF (dflt : Value)
  | embeddedF (msub : Mdl) (dflt : Value)
  | listF (om : Option Mdl) (dflt : Value)
  | dictF (ovm : Option Mdl) (dflt : Value)

/-- A model class: its name and its `_fields` schema mapping. -/
inductive Mdl where
  | mk (name : String) (fields : List (String × FieldTy))
end

def Mdl.name : Mdl → String
  | Mdl.mk n _ => n

def Mdl.fields : Mdl → List (String × FieldTy)
  | Mdl.mk _ fs => fs

/-- The `default` attribute of a field. -/
def FieldTy.default : FieldTy → Value
  | FieldTy.plainF d => d
  | FieldTy.intF d => d
  | FieldTy.embeddedF _ d => d
  | FieldTy.listF _ d => d
  | FieldTy.dictF _ d => d

/-- Errors of the embedding. -/
inductive BErr where
  | fieldError (model field : String)
  | boobyError (msg : String)
  | pyError
  | fuelOut
deriving Repr, DecidableEq

/-- Instance data: the `_data` mapping of a model instance, keyed by field
name. -/
abbrev Data := List (String × Value)

/-- Descriptor read `Field.__get__`: `instance._data.get(self, self.default)`. -/
def getField (ft : FieldTy) (d : Data) (k : String) : Value :=
  match lookupKV d k with
  | some v => v
  | none => ft.default

/-- Accumulate decimal digits; any non-digit character fails. -/
def digitsToNatGo : List Char → Nat → Option Nat
  | [], acc => some acc
  | c :: cs, acc =>
      if c.isDigit then digitsToNatGo cs (acc * 10 + (c.toNat - 48)) else none

/-- `int(value)` for string arguments, on the subset exercised here: an
optional minus sign followed by decimal digits parses; any other text
raises `ValueError` in Python, i.e. yields `none`. -/
def pyIntOfStr (s : String) : Option Int :=
  match s.data with
  | [] => none
  | '-' :: [] => none
  | '-' :: c :: cs => (digitsToNatGo (c :: cs) 0).map fun n => -(n : Int)
  | c :: cs => (digitsToNatGo (c :: cs) 0).map fun n => (n : Int)

/-- One level of the recursive operations of models.py / fields.py. -/
structure Ops where
  setF : FieldTy → Value → Except BErr Value
  toPyF : FieldTy → Value → Except BErr Value
  toPlF : FieldTy → Value → Except BErr Value
  constructD : Mdl → List (String × Value) → Except BErr Data
  updateD : Mdl → Data → List (String × Value) → Bool → Except BErr Data
  toPlainD : Mdl → Data → Except BErr (List (String × Value))

/-- Element conversion of `ListField.to_python`: each element `s` becomes
`self.model and self.model(**s) or s`.  A configured model applied to a
non-mapping element raises in Python. -/
def listPyLoop (prev : Ops) (om : Option Mdl) : List Value → Except BErr (List Value)
  | [] => pure []
  | x :: xs => do
      let y ← match om, x with
        | some msub, Value.vdict es => (prev.constructD msub es).map Value.vmodel
        | some _, _ => Except.error BErr.pyError
        | none, _ => pure x
      let ys ← listPyLoop prev om xs
      pure (y :: ys)

/-- Entry conversion of `DictField.to_python`: values become
`self.value_model(**value)` when a value model is configured; the result
dict is built by `result[key] = value`. -/
def dictPyLoop (prev : Ops) (ovm : Option Mdl) :
    List (String × Value) → Data → Except BErr Data
  | [], acc => pure acc
  | (k, x) :: rest, acc => do
      let y ← match ovm, x with
        | some msub, Value.vdict es => (prev.constructD msub es).map Value.vmodel
        | some _, _ => Except.error BErr.pyError
        | none, _ => pure x
      dictPyLoop prev ovm rest (setkv acc k y)

/-- Field `to_python` dispatch.  The base `Field`, `IntegerField` and
`EmbeddedField` inherit the identity `to_python`; `ListField.to_python` is
`value and map(lambda s: self.model and self.model(**s) or s, value) or
value`; `DictField.to_python` returns `None` for any falsy value and
otherwise rebuilds the mapping. -/
def toPyAux (prev : Ops) : FieldTy → Value → Except BErr Value
  | FieldTy.plainF _, v => pure v
  | FieldTy.intF _, v => pure v
  | FieldTy.embeddedF _ _, v => pure v
  | FieldTy.listF om _, v =>
      if truthy v then
        match v with
        | Value.vlist xs => (listPyLoop prev om xs).map Value.vlist
        | _ => Except.error BErr.pyError
      else pure v
  | FieldTy.dictF ovm _, v =>
      if truthy v then
        match v with
        | Value.vdict es => (dictPyLoop prev ovm es []).map Value.vdict
        | _ => Except.error BErr.pyError
      else pure Value.vnone

/-- Descriptor write `__set__` dispatch, returning the value stored into
`_data`.  `IntegerField.__set__` eagerly coerces non-`None` values through
`int(...)`, turning `ValueError` into `BoobyError("Should contain only
integer values.")`; `int` of a list/dict/model raises `TypeError`, which
the `except ValueError` clause does not catch.  `EmbeddedField.__set__`
constructs `self.model(**value)` from a mapping.  `ListField.__set__` and
`DictField.__set__` convert through `to_python` when a model is configured
and the first element (first entry value) is not already a model
instance. -/
def setFAux (prev : Ops) : FieldTy → Value → Except BErr Value
  | FieldTy.plainF _, v => pure v
  | FieldTy.intF _, v =>
      match v with
      | Value.vnone => pure Value.vnone
      | Value.vint n => pure (Value.vint n)
      | Value.vbool b => pure (Value.vint (if b then 1 else 0))
      | Value.vstr s =>
          match pyIntOfStr s with
          | some n => pure (Value.vint n)
          | none => Except.error (BErr.boobyError "Should contain only integer values.")
      | _ => Except.error BErr.pyError
  | FieldTy.embeddedF msub _, v =>
      match v with
      | Value.vdict es => (prev.constructD msub es).map Value.vmodel
      | _ => pure v
  | FieldTy.listF om _, v =>
      match om, v with
      | some msub, Value.vlist (x :: xs) =>
          if isModelV x then pure (Value.vlist (x :: xs))
          else (listPyLoop prev (some msub) (x :: xs)).map Value.vlist
      | _, _ => pure v
  | FieldTy.dictF ovm _, v =>
      match ovm, v with
      | some msub, Value.vdict ((k0, v0) :: rest) =>
          if isModelV v0 then pure (Value.vdict ((k0, v0) :: rest))
          else (dictPyLoop prev (some msub) ((k0, v0) :: rest) []).map Value.vdict
      | _, _ => pure v

/-- `Model.__init__` body: for each keyword, raise `FieldError` when the
name is not in `_fields`, else run the descriptor write. -/
def constructLoop (prev : Ops) (m : Mdl) :
    List (String × Value) → Data → Except BErr Data
  | [], acc => pure acc
  | (k, v) :: rest, acc =>
      match lookupKV m.fields k with
      | none => Except.error (BErr.fieldError m.name k)
      | some ft =>
          (setFAux prev ft v).bind fun v2 => constructLoop prev m rest (setkv acc k v2)

/-- One declared key of `Model._update`.  The current value read through the
descriptor is always truthy when it is a model instance, so the source
condition `value and isinstance(value, Model) and isinstance(v, dict)`
reduces to the current value being a model and the incoming value a
mapping; in that case the source recurses in place into the `_update` of
the nested instance, which for a value held in `_data` is a store of the
updated instance.  A model current value not owned by an `EmbeddedField`
of the schema, or read from a shared class-level default, is outside the
modelled universe (`BErr.pyError`).  Otherwise `plain` routes the incoming
value through the `to_python` of the field before the descriptor write. -/
def updateStepVal (prev : Ops) (d : Data) (k : String) (v : Value)
    (ft : FieldTy) (plainFlag : Bool) : Except BErr Value :=
  match getField ft d k, v with
  | Value.vmodel dn, Value.vdict sub =>
      match ft, lookupKV d k with
      | FieldTy.embeddedF msub _, some _ =>
          (prev.updateD msub dn sub plainFlag).map Value.vmodel
      | _, _ => Except.error BErr.pyError
  | _, _ =>
      if plainFlag then (toPyAux prev ft v).bind fun v2 => setFAux prev ft v2
      else setFAux prev ft v

/-- The `_data` store every branch of the per-key body performs at the
processed key. -/
def updateStep (prev : Ops) (d : Data) (k : String) (v : Value)
    (ft : FieldTy) (plainFlag : Bool) : Except BErr Data :=
  (updateStepVal prev d k v ft plainFlag).map fun w => setkv d k w

/-- `Model._update`: iterate the given mapping; keys not in `_fields` are
silently skipped (`continue`), declared keys go through `updateStep`. -/
def updateLoop (prev : Ops) (m : Mdl) :
    Data → List (String × Value) → Bool → Except BErr Data
  | d, [], _ => pure d
  | d, (k, v) :: rest, plainFlag =>
      match lookupKV m.fields k with
      | none => updateLoop prev m d rest plainFlag
      | some ft =>
          (updateStep prev d k v ft plainFlag).bind fun d2 =>
            updateLoop prev m d2 rest plainFlag

/-- Element serialization of `ListField.to_plain`: each element is
`isinstance(s, Model) and s.to_plain() or s`, so a model element whose own
serialization is falsy falls back to the element object itself. -/
def listPlLoop (prev : Ops) (om : Option Mdl) : List Value → Except BErr (List Value)
  | [] => pure []
  | x :: xs => do
      let y ← match x with
        | Value.vmodel dn =>
            match om with
            | some msub =>
                (prev.toPlainD msub dn).map fun es =>
                  if es.isEmpty then Value.vmodel dn else Value.vdict es
            | none => Except.error BErr.pyError
        | _ => pure x
      let ys ← listPlLoop prev om xs
      pure (y :: ys)

/-- Entry serialization of `DictField.to_plain`.  Keys here are strings, so
the `isinstance(key, Model)` test of the source is false and keys pass through;
values follow `isinstance(value, Model) and value.to_plain() or value`. -/
def dictPlLoop (prev : Ops) (ovm : Option Mdl) :
    List (String × Value) → Data → Except BErr Data
  | [], acc => pure acc
  | (k, x) :: rest, acc => do
      let y ← match x with
        | Value.vmodel dn =>
            match ovm with
            | some msub =>
                (prev.toPlainD msub dn).map fun es =>
                  if es.isEmpty then Value.vmodel dn else Value.vdict es
            | none => Except.error BErr.pyError
        | _ => pure x
      dictPlLoop prev ovm rest (setkv acc k y)

/-- Field `to_plain` dispatch.  The base `Field` and `IntegerField` inherit
the identity; `EmbeddedField.to_plain` is `value and value.to_plain() or
None`; `ListField.to_plain` is `value and map(...) or None`;
`DictField.to_plain` returns `None` for falsy values and otherwise rebuilds
the mapping. -/
def toPlAux (prev : Ops) : FieldTy → Value → Except BErr Value
  | FieldTy.plainF _, v => pure v
  | FieldTy.intF _, v => pure v
  | FieldTy.embeddedF msub _, v =>
      if truthy v then
        match v with
        | Value.vmodel dn =>
            (prev.toPlainD msub dn).map fun es =>
              if es.isEmpty then Value.vnone else Value.vdict es
        | _ => Except.error BErr.pyError
      else pure Value.vnone
  | FieldTy.listF om _, v =>
      if truthy v then
        match v with
        | Value.vlist xs => (listPlLoop prev om xs).map Value.vlist
        | _ => Except.error BErr.pyError
      else pure Value.vnone
  | FieldTy.dictF ovm _, v =>
      if truthy v then
        match v with
        | Value.vdict es => (dictPlLoop prev ovm es []).map Value.vdict
        | _ => Except.error BErr.pyError
      else pure Value.vnone

/-- `Model.to_plain`: `result[field] = self._fields[field].to_plain(getattr(self, field))`
for every declared field. -/
def plainLoop (prev : Ops) : List (String × FieldTy) → Data → Except BErr (List (String × Value))
  | [], _ => pure []
  | (k, ft) :: rest, d =>
      (toPlAux prev ft (getField ft d k)).bind fun pv =>
        (plainLoop prev rest d).map fun ps => (k, pv) :: ps

/-- Level 0 of the stratified operations: the nesting budget is exhausted. -/
def failOps : Ops where
  setF _ _ := Except.error BErr.fuelOut
  toPyF _ _ := Except.error BErr.fuelOut
  toPlF _ _ := Except.error BErr.fuelOut
  constructD _ _ := Except.error BErr.fuelOut
  updateD _ _ _ _ := Except.error BErr.fuelOut
  toPlainD _ _ := Except.error BErr.fuelOut

/-- Level `n + 1` of the operations in terms of level `n`. -/
def stepOps (prev : Ops) : Ops where
  setF := setFAux prev
  toPyF := toPyAux prev
  toPlF := toPlAux prev
  constructD m kwargs := constructLoop prev m kwargs []
  updateD m d vs plainFlag := updateLoop prev m d vs plainFlag
  toPlainD m d := plainLoop prev m.fields d

/-- The operations with nesting budget `fuel`. -/
def opsAt : Nat → Ops
  | 0 => failOps
  | n + 1 => stepOps (opsAt n)

/-- `Model(**kwargs)`: `__new__` sets `_data = {}` and `__init__` runs the
keyword loop. -/
def modelNew (fuel : Nat) (m : Mdl) (kwargs : List (String × Value)) : Except BErr Data :=
  (opsAt fuel).constructD m kwargs

/-- `Model.__setitem__`: `FieldError` for an undeclared name, else the
descriptor write. -/
def setItem (fuel : Nat) (m : Mdl) (d : Data) (k : String) (v : Value) : Except BErr Data :=
  match lookupKV m.fields k with
  | none => Except.error (BErr.fieldError m.name k)
  | some ft => ((opsAt fuel).setF ft v).map fun v2 => setkv d k v2

/-- `Model._update`. -/
def modelUpdate (fuel : Nat) (m : Mdl) (d : Data) (vs : List (String × Value))
    (plainFlag : Bool) : Except BErr Data :=
  (opsAt fuel).updateD m d vs plainFlag

/-- `Model.update(dict_, plain_, **kwargs)`: a non-`None` `dict_` wins over
the keyword arguments. -/
def updateMethod (fuel : Nat) (m : Mdl) (d : Data) (odict : Option (List (String × Value)))
    (kwargs : List (String × Value)) (plainFlag : Bool) : Except BErr Data :=
  match odict with
  | some vs => modelUpdate fuel m d vs plainFlag
  | none => modelUpdate fuel m d kwargs plainFlag

/-- `Model.to_plain`. -/
def toPlainModel (fuel : Nat) (m : Mdl) (d : Data) : Except BErr (List (String × Value)) :=
  (opsAt fuel).toPlainD m d

/-- Field-level `to_plain`. -/
def fieldToPlain (fuel : Nat) : FieldTy → Value → Except BErr Value :=
  (opsAt fuel).toPlF

/-- Field-level descriptor write. -/
def fieldSet (fuel : Nat) : FieldTy → Value → Except BErr Value :=
  (opsAt fuel).setF

/-- `Model.from_plain_dict`: `cls()` (empty `_data`) followed by
`update(dict_=plain_dict, plain_=True)`. -/
def fromPlainDict (fuel : Nat) (m : Mdl) (pd : List (String × Value)) : Except BErr Data :=
  updateMethod fuel m [] (some pd) [] true

/-!
## Schema construction at class-creation time (base.py, `ModelMeta.__new__`)

A model class is embedded by its direct base classes and the `Field`-valued
entries of its own class body (`attrs`).  After `ModelMeta` runs, the class
`__dict__` still holds exactly the directly declared fields (plus the
`_fields` dict, which is not a `Field`), so the `Field`-valued entries of a
base class `__dict__` are the fields declared directly on that base.  Field
specifications are abstract tags (`Nat`). -/

/-- A class participating in `ModelMeta`: its direct bases and the fields
declared directly in its class body. -/
inductive MCls where
  | mk (name : String) (bases : List MCls) (declared : List (String × Nat))

def MCls.declaredFields : MCls → List (String × Nat)
  | MCls.mk _ _ ds => ds

/-- Insert every binding of `xs` into `acc`, later bindings overwriting
earlier ones, as a Python dict update loop does. -/
def insertAll (acc : List (String × Nat)) (xs : List (String × Nat)) : List (String × Nat) :=
  xs.foldl (fun a kv => setkv a kv.1 kv.2) acc

/-- `ModelMeta.__new__`: start from an empty fields dict; for each direct base, copy
the `Field`-valued entries of `base.__dict__`; then copy the `Field`-valued
entries of `attrs`. -/
def mclsFields : MCls → List (String × Nat)
  | MCls.mk _ bases declared =>
      insertAll (bases.foldl (fun acc b => insertAll acc b.declaredFields) []) declared

/-- Modelled from the spec: the schema the specification describes, "the
union of all FieldSpecs declared directly on the type and on every ancestor
type, keyed by name (descendant overrides ancestor on name collision)",
i.e. a transitive union over the whole ancestry.  The `Nat` budget bounds
the ancestry depth and is immaterial for budgets at least that depth. -/
def specTransFields : Nat → MCls → List (String × Nat)
  | 0, _ => []
  | fuel + 1, MCls.mk _ bases declared =>
      insertAll (bases.foldl (fun acc b => insertAll acc (specTransFields fuel b)) []) declared

/-!
## Validator chain assembly (base.py `Field.__init__`, fields.py subtypes)

The validator objects themselves live in booby/validators.py, which is not
part of the sources; they appear here as abstract tags.  What is embedded is
the assembly order performed by the constructors that are in the sources. -/

/-- Validator objects, as abstract tags.  `modelV` is a `validators.Model`
instance tagged by the model class name; `custom` is a caller-supplied
validator. -/
inductive PyValidator where
  | requiredV
  | inChoices (choices : List Value)
  | stringV
  | integerV
  | floatV
  | booleanV
  | emailV
  | datetimeV
  | modelV (name : String)
  | listV (inner : List PyValidator)
  | dictV
  | minV (bound : Int)
  | maxV (bound : Int)
  | custom (tag : Nat)
deriving Repr

/-- `Field.__init__`: start from `[]`, append `Required()` when the
`required` keyword is truthy, append `In(choices)` when `choices` is
truthy (non-empty), then extend with the positional validators. -/
def fieldValidators (required : Bool) (choices : List Value)
    (positional : List PyValidator) : List PyValidator :=
  ((if required then [PyValidator.requiredV] else []) ++
    (if choices.isEmpty then [] else [PyValidator.inChoices choices])) ++ positional

/-- `StringField.__init__`: `super().__init__(validators.String(), *args, **kwargs)`. -/
def stringFieldValidators (required : Bool) (choices : List Value)
    (custom : List PyValidator) : List PyValidator :=
  fieldValidators required choices (PyValidator.stringV :: custom)

/-- Python truthiness of the optional `min_value` / `max_value` keyword:
the bound is appended only when the keyword is present and non-zero. -/
def boundPart (mk : Int → PyValidator) : Option Int → List PyValidator
  | some b => if b ≠ 0 then [mk b] else []
  | none => []

/-- `IntegerField.__init__`: pass `validators.Integer()` first to the base
constructor, then append `Min` / `Max` when the bounds are truthy. -/
def integerFieldValidators (required : Bool) (choices : List Value)
    (custom : List PyValidator) (minB maxB : Option Int) : List PyValidator :=
  (fieldValidators required choices (PyValidator.integerV :: custom) ++
    boundPart PyValidator.minV minB) ++ boundPart PyValidator.maxV maxB

/-- `FloatField.__init__`: same shape as `IntegerField` with `validators.Float()`. -/
def floatFieldValidators (required : Bool) (choices : List Value)
    (custom : List PyValidator) (minB maxB : Option Int) : List PyValidator :=
  (fieldValidators required choices (PyValidator.floatV :: custom) ++
    boundPart PyValidator.minV minB) ++ boundPart PyValidator.maxV maxB

/-- `BooleanField.__init__`. -/
def booleanFieldValidators (required : Bool) (choices : List Value)
    (custom : List PyValidator) : List PyValidator :=
  fieldValidators required choices (PyValidator.booleanV :: custom)

/-- `EmailField.__init__`. -/
def emailFieldValidators (required : Bool) (choices : List Value)
    (custom : List PyValidator) : List PyValidator :=
  fieldValidators required choices (PyValidator.emailV :: custom)

/-- `DateTimeField.__init__`. -/
def datetimeFieldValidators (required : Bool) (choices : List Value)
    (custom : List PyValidator) : List PyValidator :=
  fieldValidators required choices (PyValidator.datetimeV :: custom)

/-- `EmbeddedField.__init__`: `validators.Model(model)` first. -/
def embeddedFieldValidators (modelName : String) (required : Bool)
    (choices : List Value) (custom : List PyValidator) : List PyValidator :=
  fieldValidators required choices (PyValidator.modelV modelName :: custom)

/-- `DictField.__init__`: `validators.Dict()` first, then `*args`. -/
def dictFieldValidators (required : Bool) (choices : List Value)
    (custom : List PyValidator) : List PyValidator :=
  fieldValidators required choices (PyValidator.dictV :: custom)

/-!
## `fetch_model` and `ListField` construction (fields.py) -/

/-- An element of the validator specification handed to `ListField` /
`DictField`: a class object that subclasses `Model`, an instance of
`validators.Model`, an instance of some other class of the validators
module, or any other object (silently ignored by `fetch_model`). -/
inductive VSpec where
  | modelClass (name : String)
  | modelValidator (name : String)
  | builtinValidator (v : PyValidator)
  | otherObject (tag : Nat)
deriving Repr

/-- The loop of `fetch_model`: a second nested-model entry (class or
`validators.Model` instance, in any combination) raises
a `BoobyError` saying there must be only one model validator in a list field.
A model class is wrapped into `validators.Model(validator)`. -/
def fetchModelGo : List VSpec → Option String → List PyValidator → List PyValidator →
    Except BErr (Option String × List PyValidator × List PyValidator)
  | [], model, modelVs, innerVs => pure (model, modelVs, innerVs)
  | VSpec.modelClass nm :: rest, model, modelVs, innerVs =>
      match model with
      | some _ =>
          Except.error (BErr.boobyError "In list field there must be only one model validator")
      | none => fetchModelGo rest (some nm) (modelVs ++ [PyValidator.modelV nm]) innerVs
  | VSpec.modelValidator nm :: rest, model, modelVs, innerVs =>
      match model with
      | some _ =>
          Except.error (BErr.boobyError "In list field there must be only one model validator")
      | none => fetchModelGo rest (some nm) (modelVs ++ [PyValidator.modelV nm]) innerVs
  | VSpec.builtinValidator v :: rest, model, modelVs, innerVs =>
      fetchModelGo rest model modelVs (innerVs ++ [v])
  | VSpec.otherObject _ :: rest, model, modelVs, innerVs =>
      fetchModelGo rest model modelVs innerVs

/-- `fetch_model(validators)`. -/
def fetchModel (vs : List VSpec) :
    Except BErr (Option String × List PyValidator × List PyValidator) :=
  fetchModelGo vs none [] []

/-- The number of nested-model entries (model classes or `validators.Model`
instances) in an element specification. -/
def countModels : List VSpec → Nat
  | [] => 0
  | VSpec.modelClass _ :: rest => countModels rest + 1
  | VSpec.modelValidator _ :: rest => countModels rest + 1
  | _ :: rest => countModels rest

/-- The argument `ListField` receives for its element specification:
`ensure_iterable` turns `None`/falsy into `()`, a single validator object
into a one-element tuple, and passes lists and tuples through. -/
inductive VArg where
  | noArg
  | one (v : VSpec)
  | many (vs : List VSpec)
deriving Repr

/-- `ensure_iterable`. -/
def ensureIterable : VArg → List VSpec
  | VArg.noArg => []
  | VArg.one v => [v]
  | VArg.many vs => vs

/-- `ListField.__init__`: run the element spec through `ensure_iterable`
and `fetch_model`; use the model validators if any, else the inner ones;
then call the base constructor with `validators.List(*validators)` as the
single positional validator (the extra `*args` are not forwarded). -/
def listFieldMk (varg : VArg) (required : Bool) (choices : List Value) :
    Except BErr (Option String × List PyValidator) := do
  let vs := ensureIterable varg
  let (model, modelVs, innerVs) ← fetchModel vs
  let chosen := if modelVs.isEmpty then innerVs else modelVs
  pure (model, fieldValidators required choices [PyValidator.listV chosen])

/-!
## Association-list lemmas -/

theorem lookupKV_setkv_self {α : Type} (l : List (String × α)) (k : String) (v : α) :
    lookupKV (setkv l k v) k = some v := by
  induction l with
  | nil => simp [setkv, lookupKV]
  | cons kv rest ih =>
      by_cases h : kv.1 = k
      · simp [setkv, h, lookupKV]
      · simp [setkv, h, lookupKV, ih]

theorem lookupKV_setkv_ne {α : Type} (l : List (String × α)) (k j : String) (v : α)
    (hne : j ≠ k) : lookupKV (setkv l k v) j = lookupKV l j := by
  have hkj : k ≠ j := fun h => hne h.symm
  induction l with
  | nil => simp [setkv, lookupKV, hkj]
  | cons kv rest ih =>
      obtain ⟨k1, v1⟩ := kv
      by_cases h : k1 = k
      · subst h
        simp [setkv, lookupKV, hkj]
      · simp [setkv, h, lookupKV, ih]

theorem lookupKV_eq_none_of_not_mem {α : Type} (l : List (String × α)) (k : String)
    (h : k ∉ l.map Prod.fst) : lookupKV l k = none := by
  induction l with
  | nil => rfl
  | cons kv rest ih =>
      simp only [List.map_cons, List.mem_cons] at h
      push_neg at h
      simp [lookupKV, Ne.symm h.1, ih h.2]

theorem setkv_of_not_mem {α : Type} (l : List (String × α)) (k : String) (v : α)
    (h : k ∉ l.map Prod.fst) : setkv l k v = l ++ [(k, v)] := by
  induction l with
  | nil => rfl
  | cons kv rest ih =>
      simp only [List.map_cons, List.mem_cons] at h
      push_neg at h
      simp [setkv, Ne.symm h.1, ih h.2]

theorem lookupKV_append {α : Type} (l1 l2 : List (String × α)) (k : String) :
    lookupKV (l1 ++ l2) k =
      match lookupKV l1 k with
      | some v => some v
      | none => lookupKV l2 k := by
  induction l1 with
  | nil => rfl
  | cons kv rest ih =>
      by_cases h : kv.1 = k
      · simp [lookupKV, h]
      · simp [lookupKV, h, ih]

theorem lookupKV_of_mem_nodup {α : Type} (l : List (String × α)) (k : String) (v : α)
    (hmem : (k, v) ∈ l) (hnodup : (l.map Prod.fst).Nodup) : lookupKV l k = some v := by
  induction l with
  | nil => cases hmem
  | cons kv rest ih =>
      simp only [List.map_cons, List.nodup_cons] at hnodup
      rcases List.mem_cons.mp hmem with heq | hrest
      · subst heq; simp [lookupKV]
      · have hne : kv.1 ≠ k := by
          intro he
          exact hnodup.1 (he ▸ (List.mem_map.mpr ⟨(k, v), hrest, rfl⟩))
        simp [lookupKV, hne, ih hrest hnodup.2]

theorem lookupKV_map_value {α β : Type} (g : String → α → β) (k : String) :
    ∀ l : List (String × α),
      lookupKV (l.map fun kv => (kv.1, g kv.1 kv.2)) k = Option.map (g k) (lookupKV l k) := by
  intro l
  induction l with
  | nil => rfl
  | cons kv rest ih =>
      by_cases h : kv.1 = k
      · subst h; simp [lookupKV]
      · simp [lookupKV, h, ih]

/-!
## Lemmas about `Model._update` -/

/-- Every successful `updateStep` stores exactly one binding, at the
processed key. -/
theorem updateStep_shape (prev : Ops) (d : Data) (k : String) (v : Value)
    (ft : FieldTy) (plainFlag : Bool) (d2 : Data)
    (h : updateStep prev d k v ft plainFlag = Except.ok d2) :
    ∃ w, d2 = setkv d k w := by
  unfold updateStep at h
  cases hv : updateStepVal prev d k v ft plainFlag with
  | error e => rw [hv] at h; cases h
  | ok w =>
      rw [hv] at h
      simp only [Except.map, Except.ok.injEq] at h
      exact ⟨w, h.symm⟩

/-- Frame property of `Model._update`: keys that do not occur in the given
mapping keep their `_data` bindings. -/
theorem updateLoop_frame (prev : Ops) (m : Mdl) :
    ∀ (vs : List (String × Value)) (d d2 : Data) (plainFlag : Bool),
      updateLoop prev m d vs plainFlag = Except.ok d2 →
      ∀ j, j ∉ vs.map Prod.fst → lookupKV d2 j = lookupKV d j := by
  intro vs
  induction vs with
  | nil =>
      intro d d2 plainFlag h j _
      cases h
      rfl
  | cons kv rest ih =>
      intro d d2 plainFlag h j hj
      obtain ⟨k, v⟩ := kv
      simp only [List.map_cons, List.mem_cons] at hj
      push_neg at hj
      cases hk : lookupKV m.fields k with
      | none =>
          simp only [updateLoop, hk] at h
          exact ih d d2 plainFlag h j hj.2
      | some ft =>
          simp only [updateLoop, hk] at h
          cases hstep : updateStep prev d k v ft plainFlag with
          | error e => rw [hstep] at h; cases h
          | ok d1 =>
              rw [hstep] at h
              obtain ⟨w, hw⟩ := updateStep_shape prev d k v ft plainFlag d1 hstep
              have h2 := ih d1 d2 plainFlag h j hj.2
              rw [h2, hw, lookupKV_setkv_ne d k j w hj.1]

/-- `Model._update` behaves exactly as if the keys missing from `_fields`
had been removed from the incoming mapping. -/
theorem updateLoop_filter (prev : Ops) (m : Mdl) :
    ∀ (vs : List (String × Value)) (d : Data) (plainFlag : Bool),
      updateLoop prev m d vs plainFlag =
        updateLoop prev m d (vs.filter fun kv => (lookupKV m.fields kv.1).isSome) plainFlag := by
  intro vs
  induction vs with
  | nil => intro d plainFlag; rfl
  | cons kv rest ih =>
      intro d plainFlag
      obtain ⟨k, v⟩ := kv
      cases hk : lookupKV m.fields k with
      | none =>
          simp only [updateLoop, hk, List.filter_cons, Option.isSome_none, Bool.false_eq_true,
            if_false]
          exact ih d plainFlag
      | some ft =>
          simp only [updateLoop, hk, List.filter_cons, Option.isSome_some, if_true]
          cases hstep : updateStep prev d k v ft plainFlag with
          | error e => rfl
          | ok d1 => exact ih d1 plainFlag

/-!
## Claim theorems -/

/-- Claim C9: for every instance, calling `update` with an empty mapping and
`plain=true` leaves every field value unchanged — the operation is a no-op. -/
theorem update_empty_plain_noop (fuel : Nat) (m : Mdl) (d : Data) :
    updateMethod (fuel + 1) m d (some []) [] true = Except.ok d := rfl

/-- Claim C6: for every instance and every update mapping, keys not declared
in `_fields` are silently skipped — the update behaves exactly as on the
mapping restricted to declared keys, so no error is raised for unknown keys,
no binding is created for them, and the declared keys of the same mapping
are processed normally. -/
theorem update_skips_undeclared_keys (fuel : Nat) (m : Mdl) (d : Data)
    (vs : List (String × Value)) (plainFlag : Bool) :
    modelUpdate (fuel + 1) m d vs plainFlag =
      modelUpdate (fuel + 1) m d (vs.filter fun kv => (lookupKV m.fields kv.1).isSome)
        plainFlag := by
  show updateLoop (opsAt fuel) m d vs plainFlag = _
  exact updateLoop_filter (opsAt fuel) m vs d plainFlag

/-- Claim C3: for every model type, a field name outside the schema fails
with `FieldError` both when used as a construction keyword and when set
item-style on an existing instance, whatever the value. -/
theorem undeclared_name_field_error (fuel : Nat) (m : Mdl) (d : Data) (k : String)
    (v : Value) (hk : lookupKV m.fields k = none) :
    modelNew (fuel + 1) m [(k, v)] = Except.error (BErr.fieldError m.name k) ∧
    setItem (fuel + 1) m d k v = Except.error (BErr.fieldError m.name k) := by
  constructor
  · show constructLoop (opsAt fuel) m [(k, v)] [] = _
    simp [constructLoop, hk]
  · unfold setItem
    rw [hk]

/-- Witness for C3: the undeclared name `zz` on a one-field model. -/
theorem undeclared_name_field_error_witness :
    modelNew 1 (Mdl.mk "Point" [("x", FieldTy.intF Value.vnone)]) [("zz", Value.vint 1)] =
        Except.error (BErr.fieldError "Point" "zz") ∧
    setItem 1 (Mdl.mk "Point" [("x", FieldTy.intF Value.vnone)]) [] "zz" (Value.vint 1) =
        Except.error (BErr.fieldError "Point" "zz") :=
  undeclared_name_field_error 0 (Mdl.mk "Point" [("x", FieldTy.intF Value.vnone)]) []
    "zz" (Value.vint 1) rfl

/-- Claim C4: assigning the text `"5"` to an `IntegerField` stores the
integer `5`; assigning `"abc"` fails at assignment time with the eager
coercion error (the `BoobyError` the spec calls ConversionError), so no
value is stored and `validate()` is never involved. -/
theorem integer_field_eager_coercion (fuel : Nat) (m : Mdl) (d : Data) (k : String)
    (dflt : Value) (hk : lookupKV m.fields k = some (FieldTy.intF dflt)) :
    setItem (fuel + 1) m d k (Value.vstr "5") = Except.ok (setkv d k (Value.vint 5)) ∧
    setItem (fuel + 1) m d k (Value.vstr "abc") =
      Except.error (BErr.boobyError "Should contain only integer values.") := by
  constructor
  · unfold setItem
    rw [hk]
    rfl
  · unfold setItem
    rw [hk]
    rfl

/-- Witness for C4 on a concrete one-field model. -/
theorem integer_field_eager_coercion_witness :
    setItem 1 (Mdl.mk "P" [("x", FieldTy.intF Value.vnone)]) [] "x" (Value.vstr "5") =
        Except.ok [("x", Value.vint 5)] ∧
    setItem 1 (Mdl.mk "P" [("x", FieldTy.intF Value.vnone)]) [] "x" (Value.vstr "abc") =
        Except.error (BErr.boobyError "Should contain only integer values.") :=
  integer_field_eager_coercion 0 (Mdl.mk "P" [("x", FieldTy.intF Value.vnone)]) [] "x"
    Value.vnone rfl

/-- The Required part of a validator chain, as the spec describes it. -/
def requiredPart (required : Bool) : List PyValidator :=
  if required then [PyValidator.requiredV] else []

/-- The In part of a validator chain, as the spec describes it. -/
def choicesPart (choices : List Value) : List PyValidator :=
  if choices.isEmpty then [] else [PyValidator.inChoices choices]

/-- Claim C7: for every field constructor that forwards positional
validators, the chain is assembled in the fixed order Required (when
`required` is truthy), In (when `choices` is non-empty), the type-specific
validator, then every caller-supplied custom validator; for the numeric
fields the optional Min/Max bound validators are appended after that. -/
theorem validator_chain_fixed_order (required : Bool) (choices : List Value)
    (custom : List PyValidator) (modelName : String) (minB maxB : Option Int) :
    stringFieldValidators required choices custom =
        requiredPart required ++ choicesPart choices ++ [PyValidator.stringV] ++ custom ∧
    booleanFieldValidators required choices custom =
        requiredPart required ++ choicesPart choices ++ [PyValidator.booleanV] ++ custom ∧
    emailFieldValidators required choices custom =
        requiredPart required ++ choicesPart choices ++ [PyValidator.emailV] ++ custom ∧
    datetimeFieldValidators required choices custom =
        requiredPart required ++ choicesPart choices ++ [PyValidator.datetimeV] ++ custom ∧
    embeddedFieldValidators modelName required choices custom =
        requiredPart required ++ choicesPart choices ++
          [PyValidator.modelV modelName] ++ custom ∧
    dictFieldValidators required choices custom =
        requiredPart required ++ choicesPart choices ++ [PyValidator.dictV] ++ custom ∧
    integerFieldValidators required choices custom minB maxB =
        requiredPart required ++ choicesPart choices ++ [PyValidator.integerV] ++ custom ++
          (boundPart PyValidator.minV minB ++ boundPart PyValidator.maxV maxB) ∧
    floatFieldValidators required choices custom minB maxB =
        requiredPart required ++ choicesPart choices ++ [PyValidator.floatV] ++ custom ++
          (boundPart PyValidator.minV minB ++ boundPart PyValidator.maxV maxB) ∧
    fieldValidators required choices custom =
        requiredPart required ++ choicesPart choices ++ custom := by
  refine ⟨?_, ?_, ?_, ?_, ?_, ?_, ?_, ?_, ?_⟩ <;>
    simp [stringFieldValidators, booleanFieldValidators, emailFieldValidators,
      datetimeFieldValidators, embeddedFieldValidators, dictFieldValidators,
      integerFieldValidators, floatFieldValidators, fieldValidators,
      requiredPart, choicesPart, List.append_assoc]

/-- Claim C10: for `ListField`, `DictField` and `EmbeddedField`, `to_plain`
maps every falsy current value (in particular the empty list, the empty
dict, and `None`) to `None`, and an embedded model instance whose own
`to_plain()` result is falsy also serializes to `None`. -/
theorem collection_to_plain_falsy_none (fuel : Nat) (om ovm : Option Mdl) (msub : Mdl)
    (dflt : Value) (v : Value) (dn : Data)
    (hfalsy : truthy v = false)
    (hnested : toPlainModel fuel msub dn = Except.ok []) :
    fieldToPlain (fuel + 1) (FieldTy.listF om dflt) v = Except.ok Value.vnone ∧
    fieldToPlain (fuel + 1) (FieldTy.dictF ovm dflt) v = Except.ok Value.vnone ∧
    fieldToPlain (fuel + 1) (FieldTy.embeddedF msub dflt) v = Except.ok Value.vnone ∧
    fieldToPlain (fuel + 1) (FieldTy.embeddedF msub dflt) (Value.vmodel dn) =
      Except.ok Value.vnone := by
  refine ⟨?_, ?_, ?_, ?_⟩
  · show toPlAux (opsAt fuel) (FieldTy.listF om dflt) v = _
    simp only [toPlAux, hfalsy, Bool.false_eq_true, if_false]
    rfl
  · show toPlAux (opsAt fuel) (FieldTy.dictF ovm dflt) v = _
    simp only [toPlAux, hfalsy, Bool.false_eq_true, if_false]
    rfl
  · show toPlAux (opsAt fuel) (FieldTy.embeddedF msub dflt) v = _
    simp only [toPlAux, hfalsy, Bool.false_eq_true, if_false]
    rfl
  · show toPlAux (opsAt fuel) (FieldTy.embeddedF msub dflt) (Value.vmodel dn) = _
    have hn : (opsAt fuel).toPlainD msub dn = Except.ok [] := hnested
    simp only [toPlAux, truthy, hn]
    rfl

/-- Witness for C10: empty list, empty dict and `None` values, and a nested
instance of a fieldless model (whose serialization is the falsy `{}`). -/
theorem collection_to_plain_falsy_none_witness :
    fieldToPlain 2 (FieldTy.listF none Value.vnone) (Value.vlist []) = Except.ok Value.vnone ∧
    fieldToPlain 2 (FieldTy.dictF none Value.vnone) (Value.vlist []) = Except.ok Value.vnone ∧
    fieldToPlain 2 (FieldTy.embeddedF (Mdl.mk "Empty" []) Value.vnone) (Value.vlist []) =
        Except.ok Value.vnone ∧
    fieldToPlain 2 (FieldTy.embeddedF (Mdl.mk "Empty" []) Value.vnone) (Value.vmodel []) =
        Except.ok Value.vnone :=
  collection_to_plain_falsy_none 1 none none (Mdl.mk "Empty" []) Value.vnone
    (Value.vlist []) [] rfl rfl

/-- Once `fetch_model` has recorded a model, any further nested-model entry
raises the configuration error. -/
theorem fetchModelGo_some_error :
    ∀ (vs : List VSpec) (nm : String) (mvs ivs : List PyValidator),
      1 ≤ countModels vs →
      fetchModelGo vs (some nm) mvs ivs =
        Except.error (BErr.boobyError "In list field there must be only one model validator") := by
  intro vs
  induction vs with
  | nil =>
      intro nm mvs ivs h
      simp only [countModels] at h
      omega
  | cons v rest ih =>
      intro nm mvs ivs h
      cases v with
      | modelClass nm2 => rfl
      | modelValidator nm2 => rfl
      | builtinValidator pv =>
          simp only [countModels] at h
          exact ih nm mvs (ivs ++ [pv]) h
      | otherObject t =>
          simp only [countModels] at h
          exact ih nm mvs ivs h

/-- With two or more nested-model entries remaining, `fetch_model` always
ends in the configuration error, whatever has been accumulated so far. -/
theorem fetchModelGo_two_error :
    ∀ (vs : List VSpec) (model : Option String) (mvs ivs : List PyValidator),
      2 ≤ countModels vs →
      fetchModelGo vs model mvs ivs =
        Except.error (BErr.boobyError "In list field there must be only one model validator") := by
  intro vs
  induction vs with
  | nil =>
      intro model mvs ivs h
      simp only [countModels] at h
      omega
  | cons v rest ih =>
      intro model mvs ivs h
      cases v with
      | modelClass nm2 =>
          cases model with
          | some nm => rfl
          | none =>
              simp only [countModels] at h
              exact fetchModelGo_some_error rest nm2 (mvs ++ [PyValidator.modelV nm2]) ivs
                (by omega)
      | modelValidator nm2 =>
          cases model with
          | some nm => rfl
          | none =>
              simp only [countModels] at h
              exact fetchModelGo_some_error rest nm2 (mvs ++ [PyValidator.modelV nm2]) ivs
                (by omega)
      | builtinValidator pv =>
          simp only [countModels] at h
          exact ih model mvs (ivs ++ [pv]) h
      | otherObject t =>
          simp only [countModels] at h
          exact ih model mvs ivs h

/-- Claim C8: constructing a `ListField` whose element specification
contains more than one nested-model entry — model classes or
`validators.Model` instances, in any combination — fails at
field-construction time with the configuration `BoobyError`. -/
theorem list_field_two_models_error (varg : VArg) (required : Bool) (choices : List Value)
    (h2 : 2 ≤ countModels (ensureIterable varg)) :
    listFieldMk varg required choices =
      Except.error (BErr.boobyError "In list field there must be only one model validator") := by
  have h := fetchModelGo_two_error (ensureIterable varg) none [] [] h2
  simp only [listFieldMk, fetchModel, h]
  rfl

/-- Witness for C8: a model class and a `validators.Model` instance in one
element specification. -/
theorem list_field_two_models_error_witness :
    listFieldMk (VArg.many [VSpec.modelClass "A", VSpec.modelValidator "B"]) false [] =
      Except.error (BErr.boobyError "In list field there must be only one model validator") :=
  list_field_two_models_error (VArg.many [VSpec.modelClass "A", VSpec.modelValidator "B"])
    false [] (by decide)

/-- Claim C5: when a field currently holds a nested model instance and the
incoming value for that field is a plain mapping, `_update` recurses into
the `_update` of the existing nested instance (storing the update of the same
nested data, not a freshly constructed instance), and the nested keys not
mentioned in the mapping keep their values. -/
theorem nested_update_recurses (fuel : Nat) (m msub : Mdl) (dflt : Value) (d : Data)
    (k : String) (dn : Data) (sub rest : List (String × Value)) (plainFlag : Bool)
    (hft : lookupKV m.fields k = some (FieldTy.embeddedF msub dflt))
    (hcur : lookupKV d k = some (Value.vmodel dn)) :
    modelUpdate (fuel + 1) m d ((k, Value.vdict sub) :: rest) plainFlag =
      (modelUpdate fuel msub dn sub plainFlag).bind
        (fun dn2 => modelUpdate (fuel + 1) m (setkv d k (Value.vmodel dn2)) rest plainFlag) ∧
    (∀ dn2, modelUpdate fuel msub dn sub plainFlag = Except.ok dn2 →
      ∀ j, j ∉ sub.map Prod.fst → lookupKV dn2 j = lookupKV dn j) := by
  constructor
  · show updateLoop (opsAt fuel) m d ((k, Value.vdict sub) :: rest) plainFlag = _
    have hget : getField (FieldTy.embeddedF msub dflt) d k = Value.vmodel dn := by
      simp [getField, hcur]
    simp only [updateLoop, hft, updateStep, updateStepVal, hget, hcur, modelUpdate]
    cases (opsAt fuel).updateD msub dn sub plainFlag <;> rfl
  · intro dn2 hok j hj
    cases fuel with
    | zero =>
        simp only [modelUpdate, opsAt, failOps] at hok
        cases hok
    | succ fuel1 =>
        exact updateLoop_frame (opsAt fuel1) msub sub dn dn2 plainFlag hok j hj

/-- Witness for C5: the spec example `Box{inner: EmbeddedField(Point)}` with
`inner = Point(x=1, y=1)` updated by `{"inner": {"x": 2}}`: the first part
instantiates the theorem, the second evaluates the update and shows `x`
changed to 2 while the unmentioned `y` kept its value. -/
theorem nested_update_recurses_witness :
    (modelUpdate 2 (Mdl.mk "Box" [("inner", FieldTy.embeddedF
          (Mdl.mk "Point" [("x", FieldTy.intF Value.vnone), ("y", FieldTy.intF Value.vnone)])
          Value.vnone)])
        [("inner", Value.vmodel [("x", Value.vint 1), ("y", Value.vint 1)])]
        [("inner", Value.vdict [("x", Value.vint 2)])] false =
      (modelUpdate 1
          (Mdl.mk "Point" [("x", FieldTy.intF Value.vnone), ("y", FieldTy.intF Value.vnone)])
          [("x", Value.vint 1), ("y", Value.vint 1)] [("x", Value.vint 2)] false).bind
        (fun dn2 => modelUpdate 2 (Mdl.mk "Box" [("inner", FieldTy.embeddedF
            (Mdl.mk "Point" [("x", FieldTy.intF Value.vnone), ("y", FieldTy.intF Value.vnone)])
            Value.vnone)])
          (setkv [("inner", Value.vmodel [("x", Value.vint 1), ("y", Value.vint 1)])] "inner"
            (Value.vmodel dn2)) [] false)) ∧
    modelUpdate 2 (Mdl.mk "Box" [("inner", FieldTy.embeddedF
          (Mdl.mk "Point" [("x", FieldTy.intF Value.vnone), ("y", FieldTy.intF Value.vnone)])
          Value.vnone)])
        [("inner", Value.vmodel [("x", Value.vint 1), ("y", Value.vint 1)])]
        [("inner", Value.vdict [("x", Value.vint 2)])] false =
      Except.ok [("inner", Value.vmodel [("x", Value.vint 2), ("y", Value.vint 1)])] :=
  ⟨(nested_update_recurses 1
      (Mdl.mk "Box" [("inner", FieldTy.embeddedF
          (Mdl.mk "Point" [("x", FieldTy.intF Value.vnone), ("y", FieldTy.intF Value.vnone)])
          Value.vnone)])
      (Mdl.mk "Point" [("x", FieldTy.intF Value.vnone), ("y", FieldTy.intF Value.vnone)])
      Value.vnone [("inner", Value.vmodel [("x", Value.vint 1), ("y", Value.vint 1)])]
      "inner" [("x", Value.vint 1), ("y", Value.vint 1)] [("x", Value.vint 2)] [] false
      rfl rfl).1, rfl⟩

/-!
## Claim C2: schema construction and inheritance -/

/-- First-defined choice on options. -/
def oor {α : Type} : Option α → Option α → Option α
  | some v, _ => some v
  | none, b => b

/-- Lookup after an insert-all is lookup in the reversed inserted list
(later inserts win), falling back to the accumulator. -/
theorem lookupKV_insertAll (xs : List (String × Nat)) :
    ∀ (acc : List (String × Nat)) (k : String),
      lookupKV (insertAll acc xs) k = oor (lookupKV xs.reverse k) (lookupKV acc k) := by
  induction xs with
  | nil => intro acc k; rfl
  | cons x rest ih =>
      intro acc k
      show lookupKV (insertAll (setkv acc x.1 x.2) rest) k = _
      rw [ih, List.reverse_cons, lookupKV_append]
      by_cases hx : x.1 = k
      · subst hx
        cases hr : lookupKV rest.reverse x.1 with
        | some v => simp [oor]
        | none => simp [oor, lookupKV, lookupKV_setkv_self]
      · cases hr : lookupKV rest.reverse k with
        | some v => simp [oor]
        | none => simp [oor, lookupKV, hx, lookupKV_setkv_ne acc x.1 k x.2 fun h => hx h.symm]

/-- The field a key resolves to among the direct bases: the last base (and,
inside one base, the last declaration) wins, exactly as successive dict
updates do. -/
def basesLookup : List MCls → String → Option Nat
  | [], _ => none
  | b :: bs, k => oor (basesLookup bs k) (lookupKV b.declaredFields.reverse k)

theorem lookupKV_foldl_insertAll (bases : List MCls) :
    ∀ (init : List (String × Nat)) (k : String),
      lookupKV (bases.foldl (fun acc b => insertAll acc b.declaredFields) init) k =
        oor (basesLookup bases k) (lookupKV init k) := by
  induction bases with
  | nil => intro init k; rfl
  | cons b bs ih =>
      intro init k
      show lookupKV (bs.foldl _ (insertAll init b.declaredFields)) k = _
      rw [ih, lookupKV_insertAll]
      simp only [basesLookup]
      cases basesLookup bs k <;> cases lookupKV b.declaredFields.reverse k <;> rfl

/-- Amended claim C2: the `_fields` mapping built by `ModelMeta.__new__` is
the union of the fields declared directly on the type with the fields
declared directly on its immediate base classes only — its own
declaration wins over any base, and among several bases the later one
wins.  Fields of ancestors at depth two or more are not included (they sit
in the grandparent `__dict__`, which the loop never visits). -/
theorem schema_one_level_union (name : String) (bases : List MCls)
    (declared : List (String × Nat)) (k : String) :
    lookupKV (mclsFields (MCls.mk name bases declared)) k =
      oor (lookupKV declared.reverse k) (basesLookup bases k) := by
  show lookupKV
      (insertAll (bases.foldl (fun acc b => insertAll acc b.declaredFields) []) declared) k = _
  rw [lookupKV_insertAll, lookupKV_foldl_insertAll]
  cases lookupKV declared.reverse k <;> cases basesLookup bases k <;> rfl

/-- A three-level hierarchy: `metaA` declares field `a`, `metaB` extends it
with `b`, `metaC` extends that with `c`. -/
def metaA : MCls := MCls.mk "A" [] [("a", 0)]

def metaB : MCls := MCls.mk "B" [metaA] [("b", 1)]

def metaC : MCls := MCls.mk "C" [metaB] [("c", 2)]

/-- Counterexample to claim C2: the schema is not the transitive union over
all ancestors.  In the hierarchy `A {a}`, `B(A) {b}`, `C(B) {c}`, the
spec-described union for `C` contains `a` (declared on the depth-2 ancestor
`A`), but the `_fields` mapping `ModelMeta.__new__` computes for `C` does
not: only the direct base `B` is scanned, and `B.__dict__` holds `b` only. -/
theorem schema_not_transitive :
    lookupKV (specTransFields 3 metaC) "a" = some 0 ∧
    lookupKV (mclsFields metaC) "a" = none :=
  ⟨rfl, rfl⟩

/-!
## Claim C1: the round-trip law -/

/-- A value `int(...)` coercion stores unchanged: `None` or an integer. -/
def intLike : Value → Bool
  | Value.vnone => true
  | Value.vint _ => true
  | _ => false

/-- A scalar field: a base `Field` whose default is not a model instance, or
an `IntegerField` whose default survives coercion unchanged. -/
def scalarTy : FieldTy → Bool
  | FieldTy.plainF dflt => !isModelV dflt
  | FieldTy.intF dflt => intLike dflt
  | _ => false

/-- The stored value of an `IntegerField` is well typed (`None` or an
integer), as every reachable `_data` state satisfies. -/
def dataIntOk (d : Data) (kv : String × FieldTy) : Bool :=
  match kv.2, lookupKV d kv.1 with
  | FieldTy.intF _, some v => intLike v
  | _, _ => true

/-- `Model.to_plain` over scalar fields reads every field and keeps the
value unchanged (identity `to_plain`). -/
theorem plainLoop_scalar (prev : Ops) (d : Data) :
    ∀ fs : List (String × FieldTy),
      (∀ kv ∈ fs, scalarTy kv.2 = true) →
      plainLoop prev fs d = Except.ok (fs.map fun kv => (kv.1, getField kv.2 d kv.1)) := by
  intro fs
  induction fs with
  | nil => intro _; rfl
  | cons kv rest ih =>
      intro h
      obtain ⟨k, ft⟩ := kv
      have hft : scalarTy ft = true := h (k, ft) (List.mem_cons_self _ _)
      have hrest := fun kv hkv => h kv (List.mem_cons_of_mem _ hkv)
      have hpl : toPlAux prev ft (getField ft d k) = Except.ok (getField ft d k) := by
        cases ft with
        | plainF dflt => rfl
        | intF dflt => rfl
        | embeddedF msub dflt => simp [scalarTy] at hft
        | listF om dflt => simp [scalarTy] at hft
        | dictF ovm dflt => simp [scalarTy] at hft
      simp only [List.map_cons, plainLoop, hpl, ih hrest]
      rfl

/-- The default of a scalar field is never a model instance. -/
theorem scalar_default_not_model (ft : FieldTy) (hft : scalarTy ft = true) :
    isModelV ft.default = false := by
  cases ft with
  | plainF dflt => simpa [scalarTy, FieldTy.default] using hft
  | intF dflt =>
      have h2 : intLike dflt = true := by simpa [scalarTy] using hft
      cases dflt <;> simp_all [intLike, isModelV, FieldTy.default]
  | embeddedF msub dflt => simp [scalarTy] at hft
  | listF om dflt => simp [scalarTy] at hft
  | dictF ovm dflt => simp [scalarTy] at hft

/-- Routing the read-back of a scalar field through `to_python` and the
descriptor write stores the very same value. -/
theorem scalar_to_store (prev : Ops) (d : Data) (k : String) (ft : FieldTy)
    (hft : scalarTy ft = true) (hd : dataIntOk d (k, ft) = true) :
    (toPyAux prev ft (getField ft d k)).bind (fun v2 => setFAux prev ft v2) =
      Except.ok (getField ft d k) := by
  cases ft with
  | plainF dflt => rfl
  | intF dflt =>
      have hv : intLike (getField (FieldTy.intF dflt) d k) = true := by
        unfold dataIntOk at hd
        unfold getField
        cases hl : lookupKV d k with
        | some v0 =>
            rw [hl] at hd
            simpa using hd
        | none => simpa [scalarTy, FieldTy.default] using hft
      cases hv2 : getField (FieldTy.intF dflt) d k <;>
        first
          | rfl
          | (rw [hv2] at hv; simp [intLike] at hv)
  | embeddedF msub dflt => simp [scalarTy] at hft
  | listF om dflt => simp [scalarTy] at hft
  | dictF ovm dflt => simp [scalarTy] at hft

/-- The `_update` body for a scalar declared key whose current value is not
a model stores the incoming value unchanged. -/
theorem updateStepVal_scalar (prev : Ops) (d0 d : Data) (k : String) (ft : FieldTy)
    (hft : scalarTy ft = true) (hcur : isModelV (getField ft d0 k) = false)
    (hd : dataIntOk d (k, ft) = true) :
    updateStepVal prev d0 k (getField ft d k) ft true = Except.ok (getField ft d k) := by
  unfold updateStepVal
  cases hc : getField ft d0 k with
  | vmodel dn => rw [hc] at hcur; simp [isModelV] at hcur
  | vnone => exact scalar_to_store prev d k ft hft hd
  | vint n => exact scalar_to_store prev d k ft hft hd
  | vstr s => exact scalar_to_store prev d k ft hft hd
  | vbool b => exact scalar_to_store prev d k ft hft hd
  | vlist xs => exact scalar_to_store prev d k ft hft hd
  | vdict es => exact scalar_to_store prev d k ft hft hd

/-- A descriptor read on data that binds the key yields the bound value. -/
theorem getField_of_lookup (ft : FieldTy) (l : Data) (k : String) (v : Value)
    (h : lookupKV l k = some v) : getField ft l k = v := by
  unfold getField
  rw [h]

/-- From a `lookupKV` miss, the key is not among the keys. -/
theorem not_mem_of_lookupKV_eq_none {α : Type} (l : List (String × α)) (k : String)
    (h : lookupKV l k = none) : k ∉ l.map Prod.fst := by
  induction l with
  | nil => simp
  | cons kv rest ih =>
      intro hmem
      by_cases hk : kv.1 = k
      · simp [lookupKV, hk] at h
      · simp only [lookupKV, hk, if_false] at h
        rcases List.mem_cons.mp hmem with he | hm
        · exact hk he.symm
        · exact ih h hm

/-- Replaying a `to_plain` serialization of scalar fields through the plain
`_update` of a fresh instance appends exactly the read values. -/
theorem updateLoop_scalar (prev : Ops) (m : Mdl) (d : Data) :
    ∀ (fs : List (String × FieldTy)) (acc : Data),
      (∀ kv ∈ fs, lookupKV m.fields kv.1 = some kv.2) →
      (∀ kv ∈ fs, scalarTy kv.2 = true) →
      (∀ kv ∈ fs, dataIntOk d kv = true) →
      (∀ kv ∈ fs, lookupKV acc kv.1 = none) →
      (fs.map Prod.fst).Nodup →
      updateLoop prev m acc (fs.map fun kv => (kv.1, getField kv.2 d kv.1)) true =
        Except.ok (acc ++ fs.map fun kv => (kv.1, getField kv.2 d kv.1)) := by
  intro fs
  induction fs with
  | nil =>
      intro acc _ _ _ _ _
      simp only [List.map_nil, List.append_nil]
      rfl
  | cons kv rest ih =>
      intro acc hlook hscalar hdata haccnone hnodup
      obtain ⟨k, ft⟩ := kv
      simp only [List.map_cons, List.nodup_cons] at hnodup
      have hk := hlook (k, ft) (List.mem_cons_self _ _)
      have hft := hscalar (k, ft) (List.mem_cons_self _ _)
      have hd := hdata (k, ft) (List.mem_cons_self _ _)
      have hacck : lookupKV acc k = none := haccnone (k, ft) (List.mem_cons_self _ _)
      have hcur : isModelV (getField ft acc k) = false := by
        have : getField ft acc k = ft.default := by simp [getField, hacck]
        rw [this]
        exact scalar_default_not_model ft hft
      have hstepv := updateStepVal_scalar prev acc d k ft hft hcur hd
      have hset : setkv acc k (getField ft d k) = acc ++ [(k, getField ft d k)] :=
        setkv_of_not_mem acc k (getField ft d k) (not_mem_of_lookupKV_eq_none acc k hacck)
      have haccnone2 : ∀ kv ∈ rest, lookupKV (acc ++ [(k, getField ft d k)]) kv.1 = none := by
        intro kv2 hkv2
        rw [lookupKV_append]
        rw [haccnone kv2 (List.mem_cons_of_mem _ hkv2)]
        have hne : k ≠ kv2.1 := by
          intro he
          exact hnodup.1 (he ▸ List.mem_map.mpr ⟨kv2, hkv2, rfl⟩)
        simp [lookupKV, hne]
      have hlook2 := fun kv hkv => hlook kv (List.mem_cons_of_mem _ hkv)
      have hscalar2 := fun kv hkv => hscalar kv (List.mem_cons_of_mem _ hkv)
      have hdata2 := fun kv hkv => hdata kv (List.mem_cons_of_mem _ hkv)
      simp only [List.map_cons, updateLoop, hk, updateStep, hstepv, Except.map, hset]
      have hih := ih (acc ++ [(k, getField ft d k)]) hlook2 hscalar2 hdata2 haccnone2 hnodup.2
      have hbind : ((Except.ok (acc ++ [(k, getField ft d k)]) : Except BErr Data).bind
            fun d2 => updateLoop prev m d2
              (List.map (fun kv => (kv.1, getField kv.2 d kv.1)) rest) true) =
          updateLoop prev m (acc ++ [(k, getField ft d k)])
            (List.map (fun kv => (kv.1, getField kv.2 d kv.1)) rest) true := rfl
      rw [hbind, hih]
      simp [List.append_assoc]

/-- A one-field model with a model-less `ListField`, and an instance whose
current value for that field is the empty list. -/
def listOnlyMdl : Mdl := Mdl.mk "L" [("xs", FieldTy.listF none Value.vnone)]

/-- The `_data` of the counterexample instance: `xs = []`. -/
def listOnlyData : Data := [("xs", Value.vlist [])]

/-- Counterexample to claim C1: the round-trip law fails on an instance
whose `ListField` value is the empty list.  `to_plain` serializes the falsy
`[]` as `None`; `from_plain_dict` then stores `None`, so the deserialized
instance reads `None` where the original read `[]`: the two differ in
logical value. -/
theorem round_trip_fails_on_empty_list :
    toPlainModel 2 listOnlyMdl listOnlyData = Except.ok [("xs", Value.vnone)] ∧
    fromPlainDict 2 listOnlyMdl [("xs", Value.vnone)] = Except.ok [("xs", Value.vnone)] ∧
    getField (FieldTy.listF none Value.vnone) [("xs", Value.vnone)] "xs" ≠
      getField (FieldTy.listF none Value.vnone) listOnlyData "xs" := by
  refine ⟨rfl, rfl, ?_⟩
  intro h
  exact Value.noConfusion h

/-- Amended claim C1: for models all of whose fields are scalar — base
`Field`s with non-model defaults or `IntegerField`s with well-typed
defaults — and whose integer `_data` entries are well typed,
`from_plain_dict(instance.to_plain())` reproduces the instance in logical
value: every declared field reads back equal.  (The unrestricted law fails
for collection and embedded fields on falsy values, which serialize to
null: see the counterexample.) -/
theorem round_trip_scalar_fields (fuel : Nat) (m : Mdl) (d : Data)
    (hnodup : (m.fields.map Prod.fst).Nodup)
    (hscalar : ∀ kv ∈ m.fields, scalarTy kv.2 = true)
    (hdata : ∀ kv ∈ m.fields, dataIntOk d kv = true) :
    ∃ pd d2, toPlainModel (fuel + 1) m d = Except.ok pd ∧
      fromPlainDict (fuel + 1) m pd = Except.ok d2 ∧
      ∀ k ft, lookupKV m.fields k = some ft → getField ft d2 k = getField ft d k := by
  refine ⟨m.fields.map fun kv => (kv.1, getField kv.2 d kv.1),
    m.fields.map fun kv => (kv.1, getField kv.2 d kv.1), ?_, ?_, ?_⟩
  · show plainLoop (opsAt fuel) m.fields d = _
    exact plainLoop_scalar (opsAt fuel) d m.fields hscalar
  · show updateLoop (opsAt fuel) m [] _ true = _
    have h := updateLoop_scalar (opsAt fuel) m d m.fields []
      (fun kv hkv => lookupKV_of_mem_nodup m.fields kv.1 kv.2 hkv hnodup) hscalar hdata
      (fun kv _ => rfl) hnodup
    simpa using h
  · intro k ft hk
    have hlook2 : lookupKV (m.fields.map fun kv => (kv.1, getField kv.2 d kv.1)) k =
        some (getField ft d k) := by
      rw [lookupKV_map_value (fun k0 ft0 => getField ft0 d k0) k m.fields, hk]
      rfl
    exact getField_of_lookup ft _ k _ hlook2

/-- Witness for the amended C1: the `Point` model of the spec, where `x` is
an integer with no default and `y` an integer with default 0, with `x = 3`
set. -/
theorem round_trip_scalar_fields_witness :
    ∃ pd d2,
      toPlainModel 1
          (Mdl.mk "Point" [("x", FieldTy.intF Value.vnone), ("y", FieldTy.intF (Value.vint 0))])
          [("x", Value.vint 3)] = Except.ok pd ∧
      fromPlainDict 1
          (Mdl.mk "Point" [("x", FieldTy.intF Value.vnone), ("y", FieldTy.intF (Value.vint 0))])
          pd = Except.ok d2 ∧
      ∀ k ft, lookupKV (Mdl.mk "Point"
          [("x", FieldTy.intF Value.vnone), ("y", FieldTy.intF (Value.vint 0))]).fields k =
            some ft →
        getField ft d2 k = getField ft [("x", Value.vint 3)] k :=
  round_trip_scalar_fields 0
    (Mdl.mk "Point" [("x", FieldTy.intF Value.vnone), ("y", FieldTy.intF (Value.vint 0))])
    [("x", Value.vint 3)] (by decide) (by decide) (by decide)
